import Mathlib

/-!
Verification of the transfer-function evaluator of `visual-z-transform`.

The core is `src/frequency_response.py`:

```python
def get_frequency_response(poles: list, zeros: list):
    w = np.linspace(-np.pi, np.pi, 1000)
    z = np.exp(1j * w)
    convert = lambda pz: (1 - pz*(1/z))
    num_terms = [convert(zero) for zero in zeros]
    dnm_terms = [convert(pole) for pole in poles]
    numerator = np.prod(num_terms, axis=0) if num_terms else 1.0
    denominator = np.prod(dnm_terms, axis=0) if dnm_terms else 1.0
    H = numerator / denominator
    return w, H
```

We embed the numeric arrays over the exact complex numbers `ℂ`.  A numpy
value that is either a python scalar (`1.0`) or a length-1000 array is
modelled by the sum type `NpVal`; numpy's broadcasting division is
`NpVal.div`, and numpy's broadcast elementwise read is `NpVal.sample`.
`len()` raises a `TypeError` on a python float, so `NpVal.len?` returns
`Option ℕ` with `none` on the scalar branch.

A second copy of the evaluator, `getFrequencyResponseF`, runs over
`CF := Option ℂ`, where `Option.none` models an IEEE-754 non-finite value
(NaN/±inf): arithmetic with a non-finite operand is non-finite, and a
finite value divided by zero is non-finite.  This model is used for the
claims about non-finite inputs and about samples landing exactly on a
pole, where the floating-point code produces non-finite values instead of
raising.
-/

set_option maxRecDepth 8000

/-- Grid sample `i` of `np.linspace(-np.pi, np.pi, 1000)`: the linspace step
is `(π - (-π)) / (1000 - 1)`. -/
noncomputable def omega (i : ℕ) : ℝ :=
  -Real.pi + i * (2 * Real.pi / 999)

/-- The array `w = np.linspace(-np.pi, np.pi, 1000)`. -/
noncomputable def w : List ℝ :=
  (List.range 1000).map omega

/-- Entry `i` of the array `z = np.exp(1j * w)`. -/
noncomputable def z (i : ℕ) : ℂ :=
  Complex.exp (Complex.I * (omega i))

/-- The lambda `convert = lambda pz: (1 - pz*(1/z))`, at grid index `i`. -/
noncomputable def convert (pz : ℂ) (i : ℕ) : ℂ :=
  1 - pz * (1 / z i)

/-- Entry `i` of `np.prod([convert(r) for r in roots], axis=0)`: the
elementwise product across the factor arrays. -/
noncomputable def prodAt (roots : List ℂ) (i : ℕ) : ℂ :=
  (roots.map (fun r => convert r i)).prod

/-- A numpy intermediate value of the evaluator: either a python scalar
(the `1.0` fallback) or a 1-d array. -/
inductive NpVal where
  | scalar (c : ℂ)
  | vector (v : List ℂ)

/-- Numpy division with scalar/array broadcasting. -/
noncomputable def NpVal.div : NpVal → NpVal → NpVal
  | NpVal.scalar a, NpVal.scalar b => NpVal.scalar (a / b)
  | NpVal.scalar a, NpVal.vector v => NpVal.vector (v.map (fun b => a / b))
  | NpVal.vector v, NpVal.scalar b => NpVal.vector (v.map (fun a => a / b))
  | NpVal.vector u, NpVal.vector v => NpVal.vector (List.zipWith (fun a b => a / b) u v)

/-- Broadcast read at index `i`: a scalar holds the same value at every
index; an array is read positionally (default `0` out of range). -/
noncomputable def NpVal.sample : NpVal → ℕ → ℂ
  | NpVal.scalar c, _ => c
  | NpVal.vector v, i => v.getD i 0

/-- Python `len()`: defined on an array, raises (`none`) on a python scalar. -/
def NpVal.len? : NpVal → Option ℕ
  | NpVal.scalar _ => Option.none
  | NpVal.vector v => Option.some v.length

/-- The value `np.prod(num_terms, axis=0) if num_terms else 1.0`: python
truthiness of the list of factor arrays selects the scalar fallback
exactly when `zeros` is empty. -/
noncomputable def numerator (zeros : List ℂ) : NpVal :=
  match zeros with
  | [] => NpVal.scalar 1
  | _ :: _ => NpVal.vector ((List.range 1000).map (fun i => prodAt zeros i))

/-- The value `np.prod(dnm_terms, axis=0) if dnm_terms else 1.0`. -/
noncomputable def denominator (poles : List ℂ) : NpVal :=
  match poles with
  | [] => NpVal.scalar 1
  | _ :: _ => NpVal.vector ((List.range 1000).map (fun i => prodAt poles i))

/-- The function `get_frequency_response(poles, zeros)` from `src/frequency_response.py`:
returns the pair `(w, H)` with `H = numerator / denominator`. -/
noncomputable def get_frequency_response (poles zeros : List ℂ) : List ℝ × NpVal :=
  (w, NpVal.div (numerator zeros) (denominator poles))

/-! ### Basic facts about the grid -/

lemma z_ne_zero (i : ℕ) : z i ≠ 0 :=
  Complex.exp_ne_zero _

lemma w_length : w.length = 1000 := by
  simp [w]

lemma w_getD (i : ℕ) (h : i < 1000) : w.getD i 0 = omega i := by
  simp [w, List.getD, List.getElem?_map, List.getElem?_range, h]

lemma getD_range_map (f : ℕ → ℂ) (i : ℕ) (h : i < 1000) :
    (((List.range 1000).map f).getD i 0) = f i := by
  simp [List.getD, List.getElem?_map, List.getElem?_range, h]

/-! ### The evaluator's sample values -/

lemma sample_eq (poles zeros : List ℂ) (i : ℕ) (h : i < 1000) :
    ((get_frequency_response poles zeros).2).sample i = prodAt zeros i / prodAt poles i := by
  match poles, zeros with
  | [], [] =>
      simp [get_frequency_response, numerator, denominator, NpVal.div, NpVal.sample, prodAt]
  | [], zk :: zs =>
      simp only [get_frequency_response, numerator, denominator, NpVal.div, NpVal.sample,
        List.map_map]
      rw [getD_range_map _ i h]
      simp [prodAt, Function.comp]
  | pk :: ps, [] =>
      simp only [get_frequency_response, numerator, denominator, NpVal.div, NpVal.sample,
        List.map_map]
      rw [getD_range_map _ i h]
      simp [prodAt, Function.comp]
  | pk :: ps, zk :: zs =>
      simp only [get_frequency_response, numerator, denominator, NpVal.div, NpVal.sample]
      rw [List.zipWith_map, List.zipWith_same]
      rw [getD_range_map _ i h]

lemma omega_zero : omega 0 = -Real.pi := by
  simp [omega]

lemma omega_last : omega 999 = Real.pi := by
  have h999 : (999 : ℝ) ≠ 0 := by norm_num
  field_simp [omega]
  ring

lemma omega_succ_sub (i : ℕ) : omega (i + 1) - omega i = 2 * Real.pi / 999 := by
  simp only [omega]
  push_cast
  ring

lemma omega_reflect (i : ℕ) (h : i ≤ 999) : omega (999 - i) = -omega i := by
  simp only [omega]
  rw [Nat.cast_sub h]
  have h999 : (999 : ℝ) ≠ 0 := by norm_num
  field_simp
  ring

lemma z_reflect (i : ℕ) (h : i ≤ 999) : z (999 - i) = (starRingEnd ℂ) (z i) := by
  simp only [z]
  rw [omega_reflect i h, ← Complex.exp_conj]
  congr 1
  simp [Complex.ext_iff]

lemma z_zero : z 0 = -1 := by
  simp only [z, omega_zero]
  rw [show Complex.I * ((-Real.pi : ℝ) : ℂ) = -(Real.pi * Complex.I) by
    push_cast; ring]
  rw [Complex.exp_neg, Complex.exp_pi_mul_I]
  norm_num

lemma prodAt_perm (l l' : List ℂ) (hl : l.Perm l') (i : ℕ) :
    prodAt l i = prodAt l' i :=
  List.Perm.prod_eq (List.Perm.map _ hl)

lemma convert_conj (r : ℂ) (i : ℕ) (h : i ≤ 999) :
    convert r (999 - i) = (starRingEnd ℂ) (convert ((starRingEnd ℂ) r) i) := by
  simp only [convert, z_reflect i h]
  rw [map_sub, map_one, map_mul, map_div₀, map_one]
  simp

lemma prodAt_reflect (l : List ℂ) (hl : (l.map (starRingEnd ℂ)).Perm l) (i : ℕ)
    (h : i ≤ 999) :
    prodAt l (999 - i) = (starRingEnd ℂ) (prodAt l i) := by
  calc prodAt l (999 - i)
      = (l.map (fun r => (starRingEnd ℂ) (convert ((starRingEnd ℂ) r) i))).prod := by
        simp only [prodAt]
        congr 1
        exact List.map_congr_left (fun r _ => convert_conj r i h)
    _ = (starRingEnd ℂ) ((l.map (fun r => convert ((starRingEnd ℂ) r) i)).prod) := by
        rw [map_list_prod]
        simp [List.map_map, Function.comp_def]
    _ = (starRingEnd ℂ) (prodAt (l.map (starRingEnd ℂ)) i) := by
        simp [prodAt, List.map_map, Function.comp_def]
    _ = (starRingEnd ℂ) (prodAt l i) := by
        rw [prodAt_perm _ _ hl]

/-! ### Floating-point model with non-finite values

`CF` is a complex floating-point value: `some c` is a finite value, `none`
is a non-finite value (NaN or ±infinity).  Arithmetic on a non-finite
operand is non-finite, and dividing a finite value by zero is non-finite,
as in IEEE-754; no exception is ever raised. -/

abbrev CF : Type := Option ℂ

noncomputable def cfMul : CF → CF → CF
  | Option.some a, Option.some b => Option.some (a * b)
  | _, _ => Option.none

noncomputable def cfSub : CF → CF → CF
  | Option.some a, Option.some b => Option.some (a - b)
  | _, _ => Option.none

noncomputable def cfDiv : CF → CF → CF
  | Option.some a, Option.some b =>
      if b = 0 then Option.none else Option.some (a / b)
  | _, _ => Option.none

/-- The lambda `convert` over floating-point values, at grid index `i`
(the grid entry `z i` itself is always finite). -/
noncomputable def convertF (pz : CF) (i : ℕ) : CF :=
  cfSub (Option.some 1) (cfMul pz (cfDiv (Option.some 1) (Option.some (z i))))

/-- Entry `i` of the elementwise `np.prod` over floating-point factor
arrays. -/
noncomputable def prodAtF (roots : List CF) (i : ℕ) : CF :=
  (roots.map (fun r => convertF r i)).foldr cfMul (Option.some 1)

/-- A numpy value in the floating-point model. -/
inductive NpValF where
  | scalar (c : CF)
  | vector (v : List CF)

noncomputable def NpValF.div : NpValF → NpValF → NpValF
  | NpValF.scalar a, NpValF.scalar b => NpValF.scalar (cfDiv a b)
  | NpValF.scalar a, NpValF.vector v => NpValF.vector (v.map (fun b => cfDiv a b))
  | NpValF.vector v, NpValF.scalar b => NpValF.vector (v.map (fun a => cfDiv a b))
  | NpValF.vector u, NpValF.vector v => NpValF.vector (List.zipWith cfDiv u v)

noncomputable def NpValF.sample : NpValF → ℕ → CF
  | NpValF.scalar c, _ => c
  | NpValF.vector v, i => v.getD i Option.none

noncomputable def numeratorF (zeros : List CF) : NpValF :=
  match zeros with
  | [] => NpValF.scalar (Option.some 1)
  | _ :: _ => NpValF.vector ((List.range 1000).map (fun i => prodAtF zeros i))

noncomputable def denominatorF (poles : List CF) : NpValF :=
  match poles with
  | [] => NpValF.scalar (Option.some 1)
  | _ :: _ => NpValF.vector ((List.range 1000).map (fun i => prodAtF poles i))

/-- The function `get_frequency_response` in the floating-point model. -/
noncomputable def getFrequencyResponseF (poles zeros : List CF) : List ℝ × NpValF :=
  (w, NpValF.div (numeratorF zeros) (denominatorF poles))

lemma cfMul_none_left (b : CF) : cfMul Option.none b = Option.none := by
  cases b <;> rfl

lemma cfMul_none_right (a : CF) : cfMul a Option.none = Option.none := by
  cases a <;> rfl

lemma cfDiv_none_right (a : CF) : cfDiv a Option.none = Option.none := by
  cases a <;> rfl

lemma cfDiv_some_zero (a : CF) : cfDiv a (Option.some 0) = Option.none := by
  cases a with
  | none => rfl
  | some a => simp [cfDiv]

lemma foldr_cfMul_none (l : List CF) (init : CF) (hl : Option.none ∈ l) :
    l.foldr cfMul init = Option.none := by
  induction l with
  | nil => cases hl
  | cons x xs ih =>
      rcases List.mem_cons.mp hl with hx | hx
      · rw [List.foldr_cons, ← hx, cfMul_none_left]
      · rw [List.foldr_cons, ih hx, cfMul_none_right]

lemma foldr_cfMul_some_zero (l : List CF) (init : CF) (hl : Option.some 0 ∈ l) :
    l.foldr cfMul init = Option.some 0 ∨ l.foldr cfMul init = Option.none := by
  induction l with
  | nil => cases hl
  | cons x xs ih =>
      rcases List.mem_cons.mp hl with hx | hx
      · rw [List.foldr_cons, ← hx]
        cases hfold : xs.foldr cfMul init with
        | none => right; rw [cfMul_none_right]
        | some b => left; simp [cfMul, zero_mul]
      · rw [List.foldr_cons]
        rcases ih hx with h0 | hn
        · rw [h0]
          cases x with
          | none => right; rw [cfMul_none_left]
          | some a => left; simp [cfMul, mul_zero]
        · rw [hn, cfMul_none_right]
          right; rfl

lemma convertF_none (i : ℕ) : convertF Option.none i = Option.none := by
  rw [convertF, cfMul_none_left]
  rfl

lemma convertF_z (i : ℕ) : convertF (Option.some (z i)) i = Option.some 0 := by
  rw [convertF, cfDiv]
  rw [if_neg (z_ne_zero i)]
  rw [cfMul, cfSub]
  rw [one_div, mul_inv_cancel₀ (z_ne_zero i), sub_self]

lemma prodAtF_none (roots : List CF) (i : ℕ) (hr : Option.none ∈ roots) :
    prodAtF roots i = Option.none := by
  apply foldr_cfMul_none
  rw [List.mem_map]
  exact ⟨Option.none, hr, convertF_none i⟩

lemma prodAtF_pole (roots : List CF) (i : ℕ) (hr : Option.some (z i) ∈ roots) :
    prodAtF roots i = Option.some 0 ∨ prodAtF roots i = Option.none := by
  apply foldr_cfMul_some_zero
  rw [List.mem_map]
  exact ⟨Option.some (z i), hr, convertF_z i⟩

lemma getD_range_mapF (f : ℕ → CF) (i : ℕ) (h : i < 1000) :
    (((List.range 1000).map f).getD i Option.none) = f i := by
  simp [List.getD, List.getElem?_map, List.getElem?_range, h]

lemma prodAtF_nil (i : ℕ) : prodAtF [] i = Option.some 1 := rfl

lemma sampleF_eq (poles zeros : List CF) (i : ℕ) (h : i < 1000) :
    ((getFrequencyResponseF poles zeros).2).sample i =
      cfDiv (prodAtF zeros i) (prodAtF poles i) := by
  match poles, zeros with
  | [], [] =>
      rfl
  | [], zk :: zs =>
      simp only [getFrequencyResponseF, numeratorF, denominatorF, NpValF.div, NpValF.sample,
        List.map_map]
      rw [getD_range_mapF _ i h]
      rfl
  | pk :: ps, [] =>
      simp only [getFrequencyResponseF, numeratorF, denominatorF, NpValF.div, NpValF.sample,
        List.map_map]
      rw [getD_range_mapF _ i h]
      rfl
  | pk :: ps, zk :: zs =>
      simp only [getFrequencyResponseF, numeratorF, denominatorF, NpValF.div, NpValF.sample]
      rw [List.zipWith_map, List.zipWith_same]
      rw [getD_range_mapF _ i h]

/-! ### The redraw logic of the interactive editor

From `src/interactive.py`, `redraw`: the frequency-response panel either
shows the evaluator's output, or, when both collections are empty, a
placeholder message — the evaluator is not invoked in that branch:

```python
if state['poles'] or state['zeros']:
    w, H = get_frequency_response(state['poles'], state['zeros'])
    plot_frequency_response_on_axis(ax_freq, w, H, log=state['log_scale'])
    ax_freq.set_title('Frequency Response')
else:
    ax_freq.text(0.5, 0.5, 'Add poles/zeros to see frequency response', ...)
```
-/

/-- What the frequency panel displays after a redraw. -/
inductive FreqPanel where
  | response (grid : List ℝ) (resp : NpVal)
  | placeholder (msg : String)

/-- The frequency-panel branch of `redraw`: python truthiness
`state['poles'] or state['zeros']` selects the evaluator call; the
doubly-empty state selects the placeholder text instead. -/
noncomputable def redrawFreqPanel (poles zeros : List ℂ) : FreqPanel :=
  match poles, zeros with
  | [], [] => FreqPanel.placeholder "Add poles/zeros to see frequency response"
  | _, _ =>
      FreqPanel.response (get_frequency_response poles zeros).1
        (get_frequency_response poles zeros).2

/-- A call of the evaluator from a caller owning the pole/zero state: the
state is threaded through explicitly, and the evaluator hands it back
untouched together with its output. -/
noncomputable def evalCall (s : List ℂ × List ℂ) :
    (List ℂ × List ℂ) × (List ℝ × NpVal) :=
  (s, get_frequency_response s.1 s.2)

lemma cfDiv_none_left (b : CF) : cfDiv Option.none b = Option.none := by
  cases b <;> rfl

lemma numerator_perm (l l' : List ℂ) (h : l.Perm l') : numerator l = numerator l' := by
  match l, l' with
  | [], [] => rfl
  | [], y :: ys => exact absurd h.symm.eq_nil (by simp)
  | x :: xs, [] => exact absurd h.eq_nil (by simp)
  | x :: xs, y :: ys =>
      simp only [numerator]
      congr 1
      exact List.map_congr_left (fun i _ => prodAt_perm _ _ h i)

lemma denominator_perm (l l' : List ℂ) (h : l.Perm l') : denominator l = denominator l' := by
  match l, l' with
  | [], [] => rfl
  | [], y :: ys => exact absurd h.symm.eq_nil (by simp)
  | x :: xs, [] => exact absurd h.eq_nil (by simp)
  | x :: xs, y :: ys =>
      simp only [denominator]
      congr 1
      exact List.map_congr_left (fun i _ => prodAt_perm _ _ h i)

/-! ### Claims -/

/-- C1: for every pole and zero collection and every grid index `i`, the
returned response satisfies
`H_i = (∏ zk in zeros, (1 - zk / z_i)) / (∏ pk in poles, (1 - pk / z_i))`,
with `z_i = e^(j ω_i)` the `i`-th grid point on the unit circle and an
empty product equal to the constant 1 at every sample. -/
theorem C1_response_formula (poles zeros : List ℂ) (i : ℕ) (h : i < 1000) :
    ((get_frequency_response poles zeros).2).sample i =
      (zeros.map (fun zk => 1 - zk / z i)).prod /
        (poles.map (fun pk => 1 - pk / z i)).prod := by
  rw [sample_eq poles zeros i h]
  simp only [prodAt, convert, mul_one_div]

/-- Witness for C1 at `poles = [i]`, `zeros = [1]`, grid index 0. -/
theorem C1_witness :
    (0 : ℕ) < 1000 ∧
    ((get_frequency_response [Complex.I] [1]).2).sample 0 =
      (([1] : List ℂ).map (fun zk => 1 - zk / z 0)).prod /
        (([Complex.I] : List ℂ).map (fun pk => 1 - pk / z 0)).prod :=
  ⟨by norm_num, C1_response_formula [Complex.I] [1] 0 (by norm_num)⟩

/-- C2 counterexample: on the doubly-empty input the claimed length
invariant fails — the second component returned is the python scalar
`1.0`, not a length-1000 sequence, so `len(H)` is undefined (`len()`
raises on a float) and in particular is not 1000. -/
theorem C2_counterexample :
    ((get_frequency_response [] []).2).len? ≠ Option.some 1000 ∧
    (get_frequency_response [] []).2 = NpVal.scalar 1 := by
  constructor
  · rw [show ((get_frequency_response [] []).2).len? = Option.none from rfl]
    intro hc
    exact Option.noConfusion hc
  · rw [show (get_frequency_response [] []).2 = NpVal.scalar (1 / 1) from rfl, div_one]

/-- C2 (amended): whenever at least one pole or zero is present, the two
returned sequences both have length 1000 (the sample count fixed in the
implementation); on the doubly-empty input only the frequency grid has
length 1000, the response being a scalar. -/
theorem C2_lengths (poles zeros : List ℂ) (h : poles ≠ [] ∨ zeros ≠ []) :
    (get_frequency_response poles zeros).1.length = 1000 ∧
    ((get_frequency_response poles zeros).2).len? = Option.some 1000 := by
  refine ⟨w_length, ?_⟩
  match poles, zeros, h with
  | [], [], h => rcases h with h | h <;> exact absurd rfl h
  | [], zk :: zs, _ =>
      simp [get_frequency_response, numerator, denominator, NpVal.div, NpVal.len?]
  | pk :: ps, [], _ =>
      simp [get_frequency_response, numerator, denominator, NpVal.div, NpVal.len?]
  | pk :: ps, zk :: zs, _ =>
      simp [get_frequency_response, numerator, denominator, NpVal.div, NpVal.len?]

/-- Witness for C2 at `poles = [i]`, `zeros = []`. -/
theorem C2_witness :
    (([Complex.I] : List ℂ) ≠ [] ∨ ([] : List ℂ) ≠ []) ∧
    ((get_frequency_response [Complex.I] []).1.length = 1000 ∧
      ((get_frequency_response [Complex.I] []).2).len? = Option.some 1000) :=
  ⟨Or.inl (by simp), C2_lengths [Complex.I] [] (Or.inl (by simp))⟩

/-- C3: on empty poles and empty zeros the evaluator returns (it computes
the scalar `1.0 / 1.0`), and the response equals 1 at every sample index:
the identity filter. -/
theorem C3_identity_filter :
    (get_frequency_response [] []).2 = NpVal.scalar 1 ∧
    ∀ i : ℕ, ((get_frequency_response [] []).2).sample i = 1 := by
  have hs : (get_frequency_response [] []).2 = NpVal.scalar 1 := by
    rw [show (get_frequency_response [] []).2 = NpVal.scalar (1 / 1) from rfl, div_one]
  exact ⟨hs, fun i => by rw [hs]; rfl⟩

/-- C4: the returned frequency grid has 1000 evenly spaced samples from
`-π` to `π`, both endpoints included, with uniform spacing `2π/999`
between consecutive samples. -/
theorem C4_grid (poles zeros : List ℂ) (i : ℕ) (h : i + 1 < 1000) :
    (get_frequency_response poles zeros).1.length = 1000 ∧
    (get_frequency_response poles zeros).1.getD 0 0 = -Real.pi ∧
    (get_frequency_response poles zeros).1.getD 999 0 = Real.pi ∧
    (get_frequency_response poles zeros).1.getD (i + 1) 0 -
      (get_frequency_response poles zeros).1.getD i 0 = 2 * Real.pi / 999 := by
  have h1 : (get_frequency_response poles zeros).1 = w := rfl
  rw [h1]
  refine ⟨w_length, ?_, ?_, ?_⟩
  · rw [w_getD 0 (by norm_num), omega_zero]
  · rw [w_getD 999 (by norm_num), omega_last]
  · rw [w_getD (i + 1) h, w_getD i (by omega), omega_succ_sub]

/-- Witness for C4 at the doubly-empty input and grid index 0. -/
theorem C4_witness :
    (0 : ℕ) + 1 < 1000 ∧
    ((get_frequency_response [] []).1.length = 1000 ∧
      (get_frequency_response [] []).1.getD 0 0 = -Real.pi ∧
      (get_frequency_response [] []).1.getD 999 0 = Real.pi ∧
      (get_frequency_response [] []).1.getD (0 + 1) 0 -
        (get_frequency_response [] []).1.getD 0 0 = 2 * Real.pi / 999) :=
  ⟨by norm_num, C4_grid [] [] 0 (by norm_num)⟩

/-- C5 counterexample: the claim asserts that a non-finite pole coordinate
is signalled as an error; instead, with a NaN pole the evaluator returns
normally — a full-length grid, and a response whose sample 0 is itself a
non-finite value silently propagated from the input.  (The code also has
no `sample_count` parameter at all: the count is fixed at 1000.) -/
theorem C5_counterexample :
    (getFrequencyResponseF [Option.none] []).1.length = 1000 ∧
    ((getFrequencyResponseF [Option.none] []).2).sample 0 = Option.none := by
  refine ⟨w_length, ?_⟩
  rw [sampleF_eq _ _ 0 (by norm_num)]
  rw [prodAtF_none [Option.none] 0 (List.mem_singleton.mpr rfl)]
  rw [cfDiv_none_right]

/-- C5 (amended): the evaluator takes no `sample_count` argument — the
count is fixed at 1000 — and performs no input validation: a non-finite
(NaN/±inf) pole or zero coordinate is not rejected; the call returns
normally and the non-finite value propagates into every response sample. -/
theorem C5_no_validation (poles zeros : List CF) (i : ℕ) (h : i < 1000)
    (hnf : Option.none ∈ poles ∨ Option.none ∈ zeros) :
    (getFrequencyResponseF poles zeros).1.length = 1000 ∧
    ((getFrequencyResponseF poles zeros).2).sample i = Option.none := by
  refine ⟨w_length, ?_⟩
  rw [sampleF_eq _ _ i h]
  rcases hnf with hp | hz
  · rw [prodAtF_none poles i hp, cfDiv_none_right]
  · rw [prodAtF_none zeros i hz, cfDiv_none_left]

/-- Witness for C5 at a single NaN zero, grid index 0. -/
theorem C5_witness :
    (0 : ℕ) < 1000 ∧
    ((getFrequencyResponseF [] [Option.none]).1.length = 1000 ∧
      ((getFrequencyResponseF [] [Option.none]).2).sample 0 = Option.none) :=
  ⟨by norm_num,
   C5_no_validation [] [Option.none] 0 (by norm_num)
     (Or.inr (List.mem_singleton.mpr rfl))⟩

/-- C6: if some pole coincides exactly with the grid point `z_i`, the
evaluator still returns normally (full-length grid, no exception), and the
`i`-th response sample is a non-finite value: the denominator factor
`1 - p/z_i` is exactly zero there, and the division by zero produces a
non-finite float rather than raising. -/
theorem C6_pole_on_grid (poles zeros : List CF) (i : ℕ) (h : i < 1000)
    (hp : Option.some (z i) ∈ poles) :
    (getFrequencyResponseF poles zeros).1.length = 1000 ∧
    ((getFrequencyResponseF poles zeros).2).sample i = Option.none := by
  refine ⟨w_length, ?_⟩
  rw [sampleF_eq _ _ i h]
  rcases prodAtF_pole poles i hp with h0 | hn
  · rw [h0, cfDiv_some_zero]
  · rw [hn, cfDiv_none_right]

/-- Witness for C6: the grid point of index 0 is `e^(-jπ) = -1`, so a pole
at `-1` lands exactly on the grid; sample 0 of the response is non-finite. -/
theorem C6_witness :
    Option.some (z 0) ∈ ([Option.some (-1 : ℂ)] : List CF) ∧
    ((getFrequencyResponseF [Option.some (-1 : ℂ)] []).1.length = 1000 ∧
      ((getFrequencyResponseF [Option.some (-1 : ℂ)] []).2).sample 0 = Option.none) := by
  have hmem : Option.some (z 0) ∈ ([Option.some (-1 : ℂ)] : List CF) := by
    rw [z_zero]
    exact List.mem_singleton.mpr rfl
  exact ⟨hmem, C6_pole_on_grid [Option.some (-1 : ℂ)] [] 0 (by norm_num) hmem⟩

/-- C7: the evaluator is pure — threading the caller's pole/zero state
through the call hands it back unchanged (no mutation), and the output is
a function of the inputs alone, so two calls on equal inputs yield equal
outputs (no hidden state). -/
theorem C7_pure (s s' : List ℂ × List ℂ) (h : s = s') :
    (evalCall s).1 = s ∧ (evalCall s).2 = (evalCall s').2 := by
  subst h
  exact ⟨rfl, rfl⟩

/-- Witness for C7 at `poles = [i]`, `zeros = [1]`. -/
theorem C7_witness :
    (evalCall ([Complex.I], [1])).1 = ([Complex.I], [1]) ∧
    (evalCall ([Complex.I], [1])).2 = (evalCall ([Complex.I], [1])).2 :=
  C7_pure ([Complex.I], [1]) ([Complex.I], [1]) rfl

/-- C8: for pole and zero collections closed under complex conjugation
(real-coefficient filters), the magnitude response is even in frequency:
the grid frequency of index `999 - i` is exactly `-ω_i`, and the response
magnitudes at indices `i` and `999 - i` agree. -/
theorem C8_conjugate_symmetry (poles zeros : List ℂ)
    (hp : (poles.map (starRingEnd ℂ)).Perm poles)
    (hz : (zeros.map (starRingEnd ℂ)).Perm zeros)
    (i : ℕ) (h : i < 1000) :
    w.getD (999 - i) 0 = -(w.getD i 0) ∧
    Complex.abs (((get_frequency_response poles zeros).2).sample (999 - i)) =
      Complex.abs (((get_frequency_response poles zeros).2).sample i) := by
  have hle : i ≤ 999 := by omega
  constructor
  · rw [w_getD (999 - i) (by omega), w_getD i h, omega_reflect i hle]
  · rw [sample_eq _ _ _ (show 999 - i < 1000 by omega), sample_eq _ _ _ h]
    rw [prodAt_reflect zeros hz i hle, prodAt_reflect poles hp i hle]
    rw [map_div₀, map_div₀, Complex.abs_conj, Complex.abs_conj]

/-- Witness for C8 at the conjugation-closed input `poles = [1]`,
`zeros = []`, grid index 0. -/
theorem C8_witness :
    w.getD (999 - 0) 0 = -(w.getD 0 0) ∧
    Complex.abs (((get_frequency_response [1] []).2).sample (999 - 0)) =
      Complex.abs (((get_frequency_response [1] []).2).sample 0) :=
  C8_conjugate_symmetry [1] [] (by simp) (by simp) 0 (by norm_num)

/-- C9: permuting the pole collection and/or the zero collection (including
rearranging duplicates) leaves the evaluator's entire output — grid and
response — unchanged. -/
theorem C9_perm_invariant (poles poles' zeros zeros' : List ℂ)
    (hp : poles.Perm poles') (hz : zeros.Perm zeros') :
    get_frequency_response poles zeros = get_frequency_response poles' zeros' := by
  unfold get_frequency_response
  rw [numerator_perm _ _ hz, denominator_perm _ _ hp]

/-- Witness for C9: swapping the two poles of `[i, 1]` leaves the output
unchanged. -/
theorem C9_witness :
    get_frequency_response [Complex.I, 1] [] = get_frequency_response [1, Complex.I] [] :=
  C9_perm_invariant [Complex.I, 1] [1, Complex.I] [] []
    (List.Perm.swap 1 Complex.I []) (List.Perm.refl [])

/-- C10: a redraw of the interactive editor shows the evaluator's output
exactly when at least one pole or zero exists; on the doubly-empty state
the evaluator is not invoked and the placeholder message is shown, so this
caller never applies the evaluator to the doubly-empty input. -/
theorem C10_redraw_guard (poles zeros : List ℂ) :
    redrawFreqPanel [] [] =
      FreqPanel.placeholder "Add poles/zeros to see frequency response" ∧
    (poles ≠ [] ∨ zeros ≠ [] →
      redrawFreqPanel poles zeros =
        FreqPanel.response (get_frequency_response poles zeros).1
          (get_frequency_response poles zeros).2) := by
  refine ⟨rfl, fun h => ?_⟩
  match poles, zeros, h with
  | [], [], h => rcases h with h | h <;> exact absurd rfl h
  | [], zk :: zs, _ => rfl
  | pk :: ps, [], _ => rfl
  | pk :: ps, zk :: zs, _ => rfl

/-- Witness for C10 at the single-pole state `poles = [i]`, `zeros = []`. -/
theorem C10_witness :
    redrawFreqPanel [] [] =
      FreqPanel.placeholder "Add poles/zeros to see frequency response" ∧
    redrawFreqPanel [Complex.I] [] =
      FreqPanel.response (get_frequency_response [Complex.I] []).1
        (get_frequency_response [Complex.I] []).2 :=
  ⟨(C10_redraw_guard [Complex.I] []).1,
   (C10_redraw_guard [Complex.I] []).2 (Or.inl (by simp))⟩
